import Mathlib

/-!
Shallow embedding of src/main.py: a task-intake service that publishes a
two-file static web artifact to a hosted git repository and notifies an
evaluation callback.

Modelling conventions:
* Remote HTTP interactions are abstracted by an Oracle record that fixes, for
  the duration of one background run, the answers the remote host gives
  (existence check, per-path file reads, per-path write acceptance, repo
  creation, hosting enablement, latest-commit lookup) and the behaviour of the
  evaluation callback per attempt.  The oracle is static within a run, which
  matches a run without out-of-band remote interference; a raised transport
  exception on a read is modelled as an Except.error value that the workflow
  propagates, exactly as a Python exception would.
* The base64 decoding step of get_file_content_from_repo is folded away: the
  optional content field of a response carries the already-decoded text (none
  models a missing field; Python would produce the empty string for it, as the
  embedding does via getD).
* Python dict entries whose value is None are collapsed to an absent Option:
  every downstream access in the source reads them with .get or truthiness
  tests, so key-present-with-None and key-absent are indistinguishable there
  (the one syntactic exception, the sha-presence re-check inside
  revise_existing_application, converges to the same value on both readings
  and is noted at ensure_sha below).
* json.loads failures, and outputs that are not an object, are collapsed into
  the single constructor LlmResult.malformed: both raise in Python and both
  are fatal in the same place.
* Side effects against the remote are collected as an Event trace so that
  claims about ordering (what was written, with which action and which
  revision token, and whether a notification was sent) are stated over traces.
-/

namespace Tds

/-- One observable side effect of a background run against the remote. -/
inductive Event where
  | createRepo
  | writeFile (name : String) (action : String) (payload_sha? : Option String)
  | enablePages
  | notify (delivered : Bool)
deriving DecidableEq

/-- A settled HTTP response from the repository host for a contents read:
status code, the (already-decoded) optional content field, optional sha. -/
structure HttpResp where
  status : Nat
  content? : Option String
  sha? : Option String
deriving DecidableEq

/-- A file entry as it flows into push_files_to_repo (a Python dict with
optional sha and action keys). -/
structure PushFile where
  name : String
  content? : Option String
  sha? : Option String
  action? : Option String
deriving DecidableEq

/-- A raw file object inside the parsed generation output. -/
structure RawFile where
  name? : Option String
  content? : Option String
  action? : Option String
deriving DecidableEq

/-- An entry of the existing_files list built by revise_existing_application. -/
structure ExistingFile where
  name : String
  content : String
  sha? : Option String
deriving DecidableEq

/-- The generation service's reply: either not parseable as the required JSON
object (json.loads raises, or the value is not an object), or parsed with an
optional files field. -/
inductive LlmResult where
  | malformed
  | parsed (files? : Option (List RawFile))
deriving DecidableEq

/-- The inbound task request body (a JSON dict; absent keys are none). -/
structure Request where
  secret? : Option String
  email? : Option String
  task? : Option String
  brief? : Option String
  evaluation_url? : Option String
  round? : Option Nat
  nonce? : Option String
deriving DecidableEq

/-- The remote world for one background run: static answers of the repository
host and of the evaluation callback. -/
structure Oracle where
  username : String
  repoExists : Bool
  readFile : String → Except String (String × Option String)
  writeOk : String → Bool
  createRepoOk : Bool
  enablePagesOk : Bool
  latestCommit : Except String String
  pingRespond : Nat → Option Nat

/-- The outbound evaluation payload. -/
structure EvalReport where
  email : String
  task : String
  round : Nat
  nonce : String
  repo_url : String
  commit_sha : String
  pages_url : String
deriving DecidableEq

/-- Which path process_task_background dispatches to. -/
inductive Route where
  | creation
  | revision
deriving DecidableEq

/-- Python truthiness of an optional string: None and the empty string are
falsy, every other string is truthy. -/
def pyTruthy (s? : Option String) : Bool :=
  match s? with
  | none => false
  | some s => s ≠ ""

/-- A strict dict access data[key]: raises KeyError when the key is absent. -/
def getReq {α : Type} (key : String) (v : Option α) : Except String α :=
  match v with
  | some a => Except.ok a
  | none => Except.error ("KeyError: " ++ key)

/-- validate_secret: exact equality with the configured secret. -/
def validate_secret (config secret : String) : Bool :=
  secret = config

/-- get_file_content_from_repo: on HTTP 200 return the decoded content (empty
when the content field is missing) together with the sha field; on any other
status return the empty result; a raised transport exception propagates. -/
def get_file_content_from_repo (resp : Except String HttpResp) :
    Except String (String × Option String) :=
  match resp with
  | Except.error e => Except.error e
  | Except.ok r =>
      if r.status = 200 then
        Except.ok ((r.content?).getD "", r.sha?)
      else
        Except.ok ("", none)

def required_files : List String := ["index.html", "README.md"]

/-- The loop body of check_repo_has_required_files: read each required file
in order; an empty content short-circuits to false; a read exception
propagates. -/
def check_repo_files_loop (readF : String → Except String (String × Option String)) :
    List String → Except String Bool
  | [] => Except.ok true
  | p :: rest =>
      match readF p with
      | Except.error e => Except.error e
      | Except.ok (content, _) =>
          if content = "" then Except.ok false
          else check_repo_files_loop readF rest

/-- check_repo_has_required_files over the static read oracle. -/
def check_repo_has_required_files
    (readF : String → Except String (String × Option String)) : Except String Bool :=
  check_repo_files_loop readF required_files

/-- The classification step at the top of process_task_background: query
repository existence, then the required files; route to revision iff both
hold.  The request body is in scope there but only logged, so it is an
ignored argument (the routing never reads the caller-supplied round). -/
def route_of (o : Oracle) (_data : Request) : Except String Route :=
  let repo_exists := o.repoExists
  match (if repo_exists then check_repo_has_required_files o.readFile else Except.ok false) with
  | Except.error e => Except.error e
  | Except.ok has_required_files =>
      Except.ok (if repo_exists && has_required_files then Route.revision else Route.creation)

/-- The per-file action/sha resolution inside push_files_to_repo: default the
action from the round, and for an update with a falsy sha re-read the file;
a truthy re-read token is adopted, otherwise the action falls back to
create. -/
def push_file_resolve (readF : String → Except String (String × Option String))
    (round : Nat) (f : PushFile) : Except String (String × Option String) :=
  let file_sha := f.sha?
  let file_action := (f.action?).getD (if round = 1 then "create" else "update")
  if file_action = "update" ∧ pyTruthy file_sha = false then
    match readF f.name with
    | Except.error e => Except.error e
    | Except.ok (_, current_sha) =>
        if pyTruthy current_sha = true then Except.ok ("update", current_sha)
        else Except.ok ("create", file_sha)
  else
    Except.ok (file_action, file_sha)

/-- The write loop of push_files_to_repo: resolve each file, emit the write
(the payload carries the sha exactly when the action is update and the sha is
truthy), and stop with an exception on a rejected write. -/
def push_files_loop (readF : String → Except String (String × Option String))
    (writeOk : String → Bool) (round : Nat) : List PushFile → List Event × Except String Unit
  | [] => ([], Except.ok ())
  | f :: rest =>
      match push_file_resolve readF round f with
      | Except.error e => ([], Except.error e)
      | Except.ok (file_action, file_sha) =>
          let payload_sha := if file_action = "update" ∧ pyTruthy file_sha = true
                             then file_sha else none
          let ev := Event.writeFile f.name file_action payload_sha
          if writeOk f.name then
            let r := push_files_loop readF writeOk round rest
            (ev :: r.1, r.2)
          else
            ([ev], Except.error ("Failed to push file " ++ f.name))

/-- push_files_to_repo (the repository identity is carried by the oracle). -/
def push_files_to_repo (readF : String → Except String (String × Option String))
    (writeOk : String → Bool) (files : List PushFile) (round : Nat) :
    List Event × Except String Unit :=
  push_files_loop readF writeOk round files

/-- The filter loop of write_code_with_llm: keep only the two recognized
names, with name and content fields. -/
def write_filter_loop : List RawFile → List PushFile
  | [] => []
  | item :: rest =>
      if item.name? = some "index.html" ∨ item.name? = some "README.md" then
        ⟨(item.name?).getD "", item.content?, none, none⟩ :: write_filter_loop rest
      else
        write_filter_loop rest

/-- write_code_with_llm after the LLM call: strict JSON parse, default the
files field to the empty list, filter to the recognized names. -/
def write_code_with_llm (gen : LlmResult) : Except String (List PushFile) :=
  match gen with
  | LlmResult.malformed => Except.error "JSONDecodeError"
  | LlmResult.parsed files? => Except.ok (write_filter_loop (files?.getD []))

/-- The sha_map lookup of update_code_with_llm: the dict comprehension lets a
later entry for the same name win, and maps each name to that entry's sha. -/
def lookup_sha (existing_files : List ExistingFile) (n : String) : Option String :=
  match existing_files.reverse.find? (fun ef => ef.name = n) with
  | some ef => ef.sha?
  | none => none

/-- The filter loop of update_code_with_llm: keep recognized names, default
the action to update, and attach the sha from the existing files when the
action is update. -/
def update_filter_loop (existing_files : List ExistingFile) : List RawFile → List PushFile
  | [] => []
  | f :: rest =>
      if f.name? = some "index.html" ∨ f.name? = some "README.md" then
        ⟨(f.name?).getD "", f.content?,
         (if (f.action?).getD "update" = "update"
          then lookup_sha existing_files ((f.name?).getD "") else none),
         some ((f.action?).getD "update")⟩ :: update_filter_loop existing_files rest
      else
        update_filter_loop existing_files rest

/-- update_code_with_llm after the LLM call. -/
def update_code_with_llm (gen : LlmResult) (existing_files : List ExistingFile) :
    Except String (List PushFile) :=
  match gen with
  | LlmResult.malformed => Except.error "JSONDecodeError"
  | LlmResult.parsed files? => Except.ok (update_filter_loop existing_files (files?.getD []))

/-- The retry loop of ping_evaluation_server, tracking the attempt index, the
remaining attempts, and the sleeps performed so far; returns (delivered,
attempts made, sleep durations).  A none response models a raised network
exception; any response outside 200/201/202 is likewise a failed attempt and
is followed by a sleep of 2 to the power of the attempt index. -/
def ping_loop (respond : Nat → Option Nat) (i : Nat) (remaining : Nat)
    (sleeps : List Nat) : Bool × Nat × List Nat :=
  match remaining with
  | 0 => (false, i, sleeps)
  | r + 1 =>
      match respond i with
      | some st =>
          if st = 200 ∨ st = 201 ∨ st = 202 then (true, i + 1, sleeps)
          else ping_loop respond (i + 1) r (sleeps ++ [2 ^ i])
      | none => ping_loop respond (i + 1) r (sleeps ++ [2 ^ i])

/-- ping_evaluation_server with max_retries attempts. -/
def ping_evaluation_server (respond : Nat → Option Nat) (max_retries : Nat) :
    Bool × Nat × List Nat :=
  ping_loop respond 0 max_retries []

/-- Whether one callback outcome counts as success in the notifier. -/
def ping_success (r : Option Nat) : Bool :=
  match r with
  | none => false
  | some st => st = 200 || st = 201 || st = 202

def key_files : List String := ["index.html", "README.md"]

/-- The existing-files fetch loop of revise_existing_application: read each
key file; an entry is appended only when the decoded content is nonempty; a
read exception propagates. -/
def fetch_loop (readF : String → Except String (String × Option String)) :
    List String → Except String (List ExistingFile)
  | [] => Except.ok []
  | p :: rest =>
      match readF p with
      | Except.error e => Except.error e
      | Except.ok (content, sha) =>
          match fetch_loop readF rest with
          | Except.error e => Except.error e
          | Except.ok l =>
              Except.ok (if content = "" then l else ⟨p, content, sha⟩ :: l)

/-- The ensure-sha loop of revise_existing_application: default a missing
action to update, and for an update without a sha copy the sha of the first
existing file with the same name.  (In Python the sha key may be present with
value None; both that and key-absence are modelled as none — the lookup then
re-installs the same None value, so the collapse is behaviour-equal.) -/
def ensure_sha (existing_files : List ExistingFile) (f0 : PushFile) : PushFile :=
  let f := if f0.action? = none then
             ⟨f0.name, f0.content?, f0.sha?, some "update"⟩ else f0
  if f.action? = some "update" ∧ f.sha? = none then
    match existing_files.find? (fun ef => ef.name = f.name) with
    | some ef => ⟨f.name, f.content?, ef.sha?, f.action?⟩
    | none => f
  else f

/-- revise_existing_application: fetch existing files, generate with existing
context, ensure shas, push with the caller round (defaulted to 2), read the
latest commit, build the evaluation payload with strict accesses, notify. -/
def revise_existing_application (o : Oracle) (data : Request) (gen : LlmResult) :
    List Event × Except String EvalReport :=
  match getReq "task" data.task? with
  | Except.error e => ([], Except.error e)
  | Except.ok repo_name =>
  match fetch_loop o.readFile key_files with
  | Except.error e => ([], Except.error e)
  | Except.ok existing_files =>
  match update_code_with_llm gen existing_files with
  | Except.error e => ([], Except.error e)
  | Except.ok updated0 =>
  let updated_files := updated0.map (ensure_sha existing_files)
  match push_files_to_repo o.readFile o.writeOk updated_files ((data.round?).getD 2) with
  | (evs, Except.error e) => (evs, Except.error e)
  | (evs, Except.ok _) =>
  match o.latestCommit with
  | Except.error e => (evs, Except.error e)
  | Except.ok commit_sha =>
  match getReq "email" data.email? with
  | Except.error e => (evs, Except.error e)
  | Except.ok email =>
  match getReq "round" data.round? with
  | Except.error e => (evs, Except.error e)
  | Except.ok round =>
  match getReq "nonce" data.nonce? with
  | Except.error e => (evs, Except.error e)
  | Except.ok nonce =>
  match getReq "evaluation_url" data.evaluation_url? with
  | Except.error e => (evs, Except.error e)
  | Except.ok _ =>
  let delivered := (ping_evaluation_server o.pingRespond 3).1
  (evs ++ [Event.notify delivered],
   Except.ok ⟨email, repo_name, round, nonce,
     "https://github.com/" ++ o.username ++ "/" ++ repo_name, commit_sha,
     "https://" ++ o.username ++ ".github.io/" ++ repo_name ++ "/"⟩)

/-- build_initial_application: generate, create the repository, push with
round 1, enable hosting, read the latest commit, build the evaluation payload
with strict accesses, notify. -/
def build_initial_application (o : Oracle) (data : Request) (gen : LlmResult) :
    List Event × Except String EvalReport :=
  match getReq "task" data.task? with
  | Except.error e => ([], Except.error e)
  | Except.ok repo_name =>
  match write_code_with_llm gen with
  | Except.error e => ([], Except.error e)
  | Except.ok files =>
  if o.createRepoOk then
    match push_files_to_repo o.readFile o.writeOk files 1 with
    | (evs, Except.error e) => (Event.createRepo :: evs, Except.error e)
    | (evs, Except.ok _) =>
    if o.enablePagesOk then
      match o.latestCommit with
      | Except.error e => (Event.createRepo :: evs ++ [Event.enablePages], Except.error e)
      | Except.ok commit_sha =>
      match getReq "email" data.email? with
      | Except.error e => (Event.createRepo :: evs ++ [Event.enablePages], Except.error e)
      | Except.ok email =>
      match getReq "round" data.round? with
      | Except.error e => (Event.createRepo :: evs ++ [Event.enablePages], Except.error e)
      | Except.ok round =>
      match getReq "nonce" data.nonce? with
      | Except.error e => (Event.createRepo :: evs ++ [Event.enablePages], Except.error e)
      | Except.ok nonce =>
      match getReq "evaluation_url" data.evaluation_url? with
      | Except.error e => (Event.createRepo :: evs ++ [Event.enablePages], Except.error e)
      | Except.ok _ =>
      let delivered := (ping_evaluation_server o.pingRespond 3).1
      (Event.createRepo :: evs ++ [Event.enablePages, Event.notify delivered],
       Except.ok ⟨email, repo_name, round, nonce,
         "https://github.com/" ++ o.username ++ "/" ++ repo_name, commit_sha,
         "https://" ++ o.username ++ ".github.io/" ++ repo_name ++ "/"⟩)
    else (Event.createRepo :: evs ++ [Event.enablePages], Except.error "Failed to enable GitHub Pages")
  else ([Event.createRepo], Except.error "Failed to create repo")

/-- process_task_background: classify live, dispatch, catch every failure at
the top level (the second component is the logged error, none on success). -/
def process_task_background (o : Oracle) (data : Request) (gen : LlmResult) :
    List Event × Option String :=
  match route_of o data with
  | Except.error e => ([], some e)
  | Except.ok Route.revision =>
      match revise_existing_application o data gen with
      | (evs, Except.ok _) => (evs, none)
      | (evs, Except.error e) => (evs, some e)
  | Except.ok Route.creation =>
      match build_initial_application o data gen with
      | (evs, Except.ok _) => (evs, none)
      | (evs, Except.error e) => (evs, some e)

/-- The synchronous response of the task endpoint. -/
inductive HResp where
  | unauthorized
  | badRequest (field : String)
  | accepted (task : Option String) (round : Option Nat)
deriving DecidableEq

/-- The first missing required field, in the order the source checks them. -/
def first_missing_required (data : Request) : Option String :=
  if data.email? = none then some "email"
  else if data.task? = none then some "task"
  else if data.brief? = none then some "brief"
  else if data.evaluation_url? = none then some "evaluation_url"
  else none

/-- handle_task: 401 on a secret mismatch, 400 on the first missing required
field, otherwise enqueue the background workflow (second component) and
return the processing acknowledgment immediately. -/
def handle_task (config : String) (data : Request) : HResp × Bool :=
  if validate_secret config ((data.secret?).getD "") = false then
    (HResp.unauthorized, false)
  else
    match first_missing_required data with
    | some f => (HResp.badRequest f, false)
    | none => (HResp.accepted data.task? data.round?, true)

/-- The endpoint paired with the (later, independent) background run: the
acknowledgment is computed before and without the run's outcome. -/
def handle_and_run (config : String) (data : Request) (o : Oracle) (gen : LlmResult) :
    (HResp × Bool) × Option (List Event × Option String) :=
  let ack := handle_task config data
  (ack, if ack.2 then some (process_task_background o data gen) else none)

/-! ### Helper lemmas -/

theorem pyTruthy_iff (s? : Option String) :
    pyTruthy s? = true ↔ ∃ s, s? = some s ∧ s ≠ "" := by
  cases s? with
  | none => simp [pyTruthy]
  | some s => simp [pyTruthy]

theorem ping_loop_all_fail (respond : Nat → Option Nat) :
    ∀ (rem i : Nat) (acc : List Nat),
      (∀ j, i ≤ j → j < i + rem → ping_success (respond j) = false) →
      ping_loop respond i rem acc =
        (false, i + rem, acc ++ (List.range' i rem).map (fun j => 2 ^ j)) := by
  intro rem
  induction rem with
  | zero => intro i acc _; simp [ping_loop]
  | succ r ih =>
      intro i acc h
      have hi : ping_success (respond i) = false :=
        h i le_rfl (by omega)
      rw [List.range'_succ]
      cases hr : respond i with
      | none =>
          have := ih (i + 1) (acc ++ [2 ^ i])
            (fun j hj1 hj2 => h j (by omega) (by omega))
          simp only [ping_loop, hr]
          rw [this]
          simp only [List.map_cons, List.append_assoc, List.singleton_append]
          have harith : i + 1 + r = i + (r + 1) := by omega
          rw [harith]
      | some st =>
          have hst : (st = 200 ∨ st = 201 ∨ st = 202) → False := by
            intro hc
            rw [hr] at hi
            simp [ping_success] at hi
            rcases hc with h1 | h1 | h1 <;> simp [h1] at hi
          have := ih (i + 1) (acc ++ [2 ^ i])
            (fun j hj1 hj2 => h j (by omega) (by omega))
          simp only [ping_loop, hr, if_neg hst]
          rw [this]
          simp only [List.map_cons, List.append_assoc, List.singleton_append]
          have harith : i + 1 + r = i + (r + 1) := by omega
          rw [harith]

theorem ping_loop_first_success (respond : Nat → Option Nat) :
    ∀ (k i rem : Nat) (acc : List Nat),
      (∀ j, j < k → ping_success (respond (i + j)) = false) →
      ping_success (respond (i + k)) = true →
      k < rem →
      ping_loop respond i rem acc =
        (true, i + k + 1, acc ++ (List.range' i k).map (fun j => 2 ^ j)) := by
  intro k
  induction k with
  | zero =>
      intro i rem acc _ hsucc hlt
      simp only [Nat.add_zero] at hsucc
      cases rem with
      | zero => omega
      | succ r =>
          cases hr : respond i with
          | none => rw [hr] at hsucc; simp [ping_success] at hsucc
          | some st =>
              have hst : st = 200 ∨ st = 201 ∨ st = 202 := by
                rw [hr] at hsucc
                simp [ping_success] at hsucc
                tauto
              simp [ping_loop, hr, if_pos hst]
  | succ k ih =>
      intro i rem acc hfail hsucc hlt
      cases rem with
      | zero => omega
      | succ r =>
          have h0 : ping_success (respond i) = false := by
            have := hfail 0 (by omega)
            simpa using this
          have step : ∀ j, j < k → ping_success (respond (i + 1 + j)) = false := by
            intro j hj
            have := hfail (j + 1) (by omega)
            have harith : i + (j + 1) = i + 1 + j := by omega
            rwa [harith] at this
          have hsucc1 : ping_success (respond (i + 1 + k)) = true := by
            have harith : i + (k + 1) = i + 1 + k := by omega
            rwa [harith] at hsucc
          have hrec := ih (i + 1) r (acc ++ [2 ^ i]) step hsucc1 (by omega)
          rw [List.range'_succ]
          cases hr : respond i with
          | none =>
              simp only [ping_loop, hr]
              rw [hrec]
              simp only [List.map_cons, List.append_assoc, List.singleton_append]
              have harith : i + 1 + k + 1 = i + (k + 1) + 1 := by omega
              rw [harith]
          | some st =>
              have hst : (st = 200 ∨ st = 201 ∨ st = 202) → False := by
                intro hc
                rw [hr] at h0
                simp [ping_success] at h0
                rcases hc with h1 | h1 | h1 <;> simp [h1] at h0
              simp only [ping_loop, hr, if_neg hst]
              rw [hrec]
              simp only [List.map_cons, List.append_assoc, List.singleton_append]
              have harith : i + 1 + k + 1 = i + (k + 1) + 1 := by omega
              rw [harith]

/-! ### Claim C5 -/

/-- C5: ping_evaluation_server treats HTTP 200/201/202 as success and any
other outcome (a non-success status or a raised network error) as a failed,
retryable attempt; failed attempt i (0-indexed) sleeps 2 to the power of i
before the next attempt; it returns delivered = true with i + 1 attempts made
on the first successful attempt i, and delivered = false after maxAttempts
failed attempts; the function is total (it returns a boolean, never an
exception). -/
theorem C5_notifier_backoff (respond : Nat → Option Nat) (maxAttempts k : Nat) :
    ((∀ i, i < maxAttempts → ping_success (respond i) = false) →
      ping_evaluation_server respond maxAttempts =
        (false, maxAttempts, (List.range maxAttempts).map (fun i => 2 ^ i))) ∧
    (k < maxAttempts →
      ping_success (respond k) = true →
      (∀ i, i < k → ping_success (respond i) = false) →
      ping_evaluation_server respond maxAttempts =
        (true, k + 1, (List.range k).map (fun i => 2 ^ i))) := by
  constructor
  · intro h
    have := ping_loop_all_fail respond maxAttempts 0 [] (fun j hj1 hj2 => h j (by omega))
    simpa [ping_evaluation_server, List.range_eq_range'] using this
  · intro hk hs hf
    have := ping_loop_first_success respond k 0 maxAttempts []
      (fun j hj => by simpa using hf j hj) (by simpa using hs) hk
    simpa [ping_evaluation_server, List.range_eq_range'] using this

/-- Witness for C5 at concrete callbacks: one that always raises and
maxAttempts equal to 3 (exhaustion: 3 attempts, sleeps 1, 2, 4, delivered
false), and one failing twice with status 500 before returning 201
(delivered true on the third attempt). -/
theorem C5_notifier_backoff_witness :
    ping_evaluation_server (fun _ => none) 3 = (false, 3, [1, 2, 4]) ∧
    ping_evaluation_server (fun i => if i < 2 then some 500 else some 201) 3 =
      (true, 3, [1, 2]) := by
  constructor
  · have := (C5_notifier_backoff (fun _ => none) 3 0).1 (by intro i _; simp [ping_success])
    simpa using this
  · have := (C5_notifier_backoff (fun i => if i < 2 then some 500 else some 201) 3 2).2
      (by omega) (by simp [ping_success]) (by intro i hi; simp [ping_success, hi])
    simpa using this

/-! ### Claim C6 (corrected) -/

/-- C6 counterexample: an HTTP 401 response (an auth failure, not an absent
file) makes get_file_content_from_repo return the empty result instead of
propagating an error, refuting the claim that a non-absence remote failure
always propagates as an error. -/
theorem C6_read_counterexample :
    get_file_content_from_repo (Except.ok ⟨401, none, none⟩) =
      Except.ok ("", none) ∧
    ∀ e : String, get_file_content_from_repo (Except.ok ⟨401, none, none⟩) ≠
      Except.error e := by
  constructor
  · rfl
  · intro e h
    simp [get_file_content_from_repo] at h

/-- C6 amended: get_file_content_from_repo returns the empty result for every
non-200 status — absence, auth failure and server error alike; on status 200
it returns the decoded content and the sha field; only a raised transport
exception propagates up as an error, unmodified. -/
theorem C6_read_empty_on_non200 (e : String) (r : HttpResp) :
    get_file_content_from_repo (Except.error e) = Except.error e ∧
    (r.status ≠ 200 →
      get_file_content_from_repo (Except.ok r) = Except.ok ("", none)) ∧
    (r.status = 200 →
      get_file_content_from_repo (Except.ok r) =
        Except.ok ((r.content?).getD "", r.sha?)) := by
  refine ⟨rfl, fun h => ?_, fun h => ?_⟩
  · simp [get_file_content_from_repo, h]
  · simp [get_file_content_from_repo, h]

/-- Witness for C6 amended: a 404 (absent file) yields the empty result, a
200 carrying content and a sha yields both, and a transport error string
propagates. -/
theorem C6_read_empty_on_non200_witness :
    get_file_content_from_repo (Except.ok ⟨404, none, none⟩) = Except.ok ("", none) ∧
    get_file_content_from_repo (Except.ok ⟨200, some "<html>", some "abc"⟩) =
      Except.ok ("<html>", some "abc") ∧
    get_file_content_from_repo (Except.error "ConnectionError") =
      Except.error "ConnectionError" := by
  refine ⟨?_, ?_, ?_⟩
  · exact (C6_read_empty_on_non200 "x" ⟨404, none, none⟩).2.1 (by decide)
  · exact (C6_read_empty_on_non200 "x" ⟨200, some "<html>", some "abc"⟩).2.2 rfl
  · exact (C6_read_empty_on_non200 "ConnectionError" ⟨404, none, none⟩).1

theorem first_missing_required_eq_none (data : Request) :
    first_missing_required data = none ↔
      (data.email? ≠ none ∧ data.task? ≠ none ∧ data.brief? ≠ none ∧
        data.evaluation_url? ≠ none) := by
  unfold first_missing_required
  split_ifs <;> simp_all

/-! ### Claim C7 -/

/-- C7: the task endpoint returns 401 when the supplied secret differs from
the configured secret, 400 when (the secret matches and) one of email, task,
brief, evaluation_url is missing, and otherwise enqueues the workflow and
immediately returns the processing acknowledgment carrying task and round;
the acknowledgment is independent of the background run's outcome (it is the
same for every oracle and every generation result, and the background failure
is swallowed inside process_task_background). -/
theorem C7_intake (config : String) (data : Request) :
    ((data.secret?).getD "" ≠ config →
      handle_task config data = (HResp.unauthorized, false)) ∧
    ((data.secret?).getD "" = config →
      (data.email? = none ∨ data.task? = none ∨ data.brief? = none ∨
        data.evaluation_url? = none) →
      ∃ f, handle_task config data = (HResp.badRequest f, false)) ∧
    ((data.secret?).getD "" = config →
      data.email? ≠ none → data.task? ≠ none → data.brief? ≠ none →
      data.evaluation_url? ≠ none →
      handle_task config data = (HResp.accepted data.task? data.round?, true)) ∧
    (∀ (o : Oracle) (gen : LlmResult),
      (handle_and_run config data o gen).1 = handle_task config data) := by
  refine ⟨fun h => ?_, fun h hm => ?_, fun h he ht hb hu => ?_, fun o gen => rfl⟩
  · simp [handle_task, validate_secret, h]
  · cases hfm : first_missing_required data with
    | some f => exact ⟨f, by simp [handle_task, validate_secret, h, hfm]⟩
    | none =>
        exfalso
        have := (first_missing_required_eq_none data).mp hfm
        tauto
  · have hmiss : first_missing_required data = none := by
      simp [first_missing_required, he, ht, hb, hu]
    simp [handle_task, validate_secret, h, hmiss]

/-- Witness for C7 at concrete requests: a wrong secret is rejected with 401,
a missing brief is rejected with 400, and a complete request is acknowledged
with task and round and enqueued. -/
theorem C7_intake_witness :
    handle_task "s3cret"
      ⟨some "wrong", some "a@b.c", some "repo", some "b", some "u", some 1, some "n"⟩ =
      (HResp.unauthorized, false) ∧
    (∃ f, handle_task "s3cret"
      ⟨some "s3cret", some "a@b.c", some "repo", none, some "u", some 1, some "n"⟩ =
      (HResp.badRequest f, false)) ∧
    handle_task "s3cret"
      ⟨some "s3cret", some "a@b.c", some "repo", some "b", some "u", some 1, some "n"⟩ =
      (HResp.accepted (some "repo") (some 1), true) := by
  refine ⟨?_, ?_, ?_⟩
  · exact (C7_intake "s3cret"
      ⟨some "wrong", some "a@b.c", some "repo", some "b", some "u", some 1, some "n"⟩).1
      (by decide)
  · exact (C7_intake "s3cret"
      ⟨some "s3cret", some "a@b.c", some "repo", none, some "u", some 1, some "n"⟩).2.1
      (by decide) (by simp)
  · exact (C7_intake "s3cret"
      ⟨some "s3cret", some "a@b.c", some "repo", some "b", some "u", some 1, some "n"⟩).2.2.1
      (by decide) (by simp) (by simp) (by simp) (by simp)

/-! ### Claim C1 -/

/-- C1: the background workflow routes to the revision path exactly when the
live queries report that the repository exists and both index.html and
README.md read back with nonempty content; in every other case it routes to
the creation path; and the routing is a function of the oracle alone — it
does not depend on the request body, in particular not on the caller-supplied
round. -/
theorem C1_routing (o : Oracle) (d : Request) (c1 c2 : String) (s1 s2 : Option String)
    (h1 : o.readFile "index.html" = Except.ok (c1, s1))
    (h2 : o.readFile "README.md" = Except.ok (c2, s2)) :
    (route_of o d = Except.ok Route.revision ↔
      (o.repoExists = true ∧ c1 ≠ "" ∧ c2 ≠ "")) ∧
    (route_of o d = Except.ok Route.creation ↔
      ¬(o.repoExists = true ∧ c1 ≠ "" ∧ c2 ≠ "")) ∧
    (∀ d1 d2 : Request, route_of o d1 = route_of o d2) := by
  refine ⟨?_, ?_, fun d1 d2 => rfl⟩ <;>
  · unfold route_of check_repo_has_required_files check_repo_files_loop required_files
    cases hre : o.repoExists <;>
      by_cases hc1 : c1 = "" <;> by_cases hc2 : c2 = "" <;>
        simp [h1, h2, check_repo_files_loop, hc1, hc2]

/-- A concrete oracle with an existing repository whose two required files
read back nonempty. -/
def oracle_rev : Oracle :=
  ⟨"user", true,
   (fun p => if p = "index.html" then Except.ok ("<old>", some "sha1")
             else if p = "README.md" then Except.ok ("# old", some "sha2")
             else Except.ok ("", none)),
   (fun _ => true), true, true, Except.ok "c0ffee", (fun _ => some 200)⟩

/-- A request carrying only a round value. -/
def req_round (r : Nat) : Request := ⟨none, none, none, none, none, some r, none⟩

/-- Witness for C1 at a concrete oracle whose repository exists and has both
required files nonempty: the route is revision, and it is the same for two
requests that differ in their round. -/
theorem C1_routing_witness :
    (route_of oracle_rev (req_round 1) = Except.ok Route.revision) ∧
    (route_of oracle_rev (req_round 1) = route_of oracle_rev (req_round 99)) := by
  constructor
  · exact (C1_routing oracle_rev (req_round 1) "<old>" "# old"
      (some "sha1") (some "sha2") rfl rfl).1.mpr ⟨rfl, by decide, by decide⟩
  · exact (C1_routing oracle_rev (req_round 1) "<old>" "# old"
      (some "sha1") (some "sha2") rfl rfl).2.2 (req_round 1) (req_round 99)

/-! ### Claim C9 -/

/-- C9: a remote file that reads back with HTTP success and a revision token
but empty decoded content is treated as missing everywhere it is consulted:
the classifier reports the repository as lacking required files, so the run
routes to the creation path regardless of whether the repository exists; and
the existing-files fetch of the revision path omits such a file, so it
contributes no entry and no revision token to the existing-files context
(neither through the sha map nor through the ensure-sha lookup). -/
theorem C9_empty_content_as_missing (o : Oracle) (d : Request) (cI cR : String)
    (sI sR : Option String)
    (hI : o.readFile "index.html" = Except.ok (cI, sI))
    (hR : o.readFile "README.md" = Except.ok (cR, sR))
    (hEmpty : cI = "" ∨ cR = "") :
    route_of o d = Except.ok Route.creation ∧
    (∀ efs, fetch_loop o.readFile key_files = Except.ok efs →
      ∀ n, ((n = "index.html" ∧ cI = "") ∨ (n = "README.md" ∧ cR = "")) →
        (∀ ef ∈ efs, ef.name ≠ n) ∧
        lookup_sha efs n = none ∧
        efs.find? (fun ef => ef.name = n) = none) := by
  constructor
  · unfold route_of check_repo_has_required_files check_repo_files_loop required_files
    cases hre : o.repoExists <;>
      rcases hEmpty with hc | hc <;>
        by_cases hcI : cI = "" <;>
          simp_all [check_repo_files_loop]
  · intro efs hefs n hn
    simp only [fetch_loop, key_files, hI, hR] at hefs
    rcases hn with ⟨hn, hc⟩ | ⟨hn, hc⟩
    · subst hn
      rw [if_pos hc] at hefs
      by_cases hcR : cR = ""
      · rw [if_pos hcR] at hefs
        cases hefs
        simp [lookup_sha]
      · rw [if_neg hcR] at hefs
        cases hefs
        refine ⟨?_, ?_, ?_⟩
        · intro ef hef
          simp at hef
          subst hef
          simp
        · simp [lookup_sha]
        · simp
    · subst hn
      rw [if_pos hc] at hefs
      by_cases hcI : cI = ""
      · rw [if_pos hcI] at hefs
        cases hefs
        simp [lookup_sha]
      · rw [if_neg hcI] at hefs
        cases hefs
        refine ⟨?_, ?_, ?_⟩
        · intro ef hef
          simp at hef
          subst hef
          simp
        · simp [lookup_sha]
        · simp

/-- A concrete oracle whose index.html exists remotely (with a revision
token) but has empty decoded content, while README.md is nonempty. -/
def oracle_empty_index : Oracle :=
  ⟨"user", true,
   (fun p => if p = "index.html" then Except.ok ("", some "deadbee")
             else if p = "README.md" then Except.ok ("# x", some "sha9")
             else Except.ok ("", none)),
   (fun _ => true), true, true, Except.ok "c1", (fun _ => some 200)⟩

/-- Witness for C9 at oracle_empty_index: the route is creation even though
the repository exists, the fetched existing files omit index.html, and no
token for it is obtainable from them. -/
theorem C9_empty_content_as_missing_witness :
    route_of oracle_empty_index (req_round 2) = Except.ok Route.creation ∧
    (∀ ef ∈ [(⟨"README.md", "# x", some "sha9"⟩ : ExistingFile)],
      ef.name ≠ "index.html") ∧
    lookup_sha [⟨"README.md", "# x", some "sha9"⟩] "index.html" = none := by
  have h := C9_empty_content_as_missing oracle_empty_index (req_round 2)
    "" "# x" (some "deadbee") (some "sha9") rfl rfl (Or.inl rfl)
  have h2 := h.2 [⟨"README.md", "# x", some "sha9"⟩] (by rfl) "index.html"
    (Or.inl ⟨rfl, rfl⟩)
  exact ⟨h.1, h2.1, h2.2.1⟩

/-- The one-step unfolding of push_files_loop on a nonempty list. -/
theorem push_files_loop_cons (readF : String → Except String (String × Option String))
    (writeOk : String → Bool) (round : Nat) (f : PushFile) (rest : List PushFile) :
    push_files_loop readF writeOk round (f :: rest) =
      match push_file_resolve readF round f with
      | Except.error e => ([], Except.error e)
      | Except.ok (file_action, file_sha) =>
          if writeOk f.name then
            (Event.writeFile f.name file_action
               (if file_action = "update" ∧ pyTruthy file_sha = true then file_sha else none) ::
               (push_files_loop readF writeOk round rest).1,
             (push_files_loop readF writeOk round rest).2)
          else
            ([Event.writeFile f.name file_action
               (if file_action = "update" ∧ pyTruthy file_sha = true then file_sha else none)],
             Except.error ("Failed to push file " ++ f.name)) := rfl

/-! ### Claim C3 -/

/-- C3: in the write step, a file whose action is update but which carries no
(truthy) revision token causes a re-read of that file from the remote; if the
re-read yields a truthy token the update proceeds with that current token,
and if it still yields no token the action is downgraded to create and the
write is attempted (and the loop continues) rather than the run failing. -/
theorem C3_update_token_refresh
    (readF : String → Except String (String × Option String))
    (writeOk : String → Bool) (round : Nat) (f : PushFile)
    (rest : List PushFile) (c : String) (s : Option String)
    (hact : f.action? = some "update")
    (hsha : pyTruthy f.sha? = false)
    (hread : readF f.name = Except.ok (c, s)) :
    (pyTruthy s = true →
      push_file_resolve readF round f = Except.ok ("update", s)) ∧
    (pyTruthy s = false →
      push_file_resolve readF round f = Except.ok ("create", f.sha?) ∧
      (writeOk f.name = true →
        push_files_loop readF writeOk round (f :: rest) =
          (Event.writeFile f.name "create" none ::
             (push_files_loop readF writeOk round rest).1,
           (push_files_loop readF writeOk round rest).2))) := by
  have hres : push_file_resolve readF round f =
      (if pyTruthy s = true then Except.ok ("update", s)
       else Except.ok ("create", f.sha?)) := by
    simp only [push_file_resolve, hact, Option.getD_some, true_and]
    rw [if_pos hsha, hread]
  constructor
  · intro h
    rw [hres, if_pos h]
  · intro h
    have hcr : push_file_resolve readF round f = Except.ok ("create", f.sha?) := by
      rw [hres, if_neg (by simp [h])]
    refine ⟨hcr, fun hw => ?_⟩
    rw [push_files_loop_cons, hcr]
    have hpay : (if ("create" : String) = "update" ∧ pyTruthy f.sha? = true
        then f.sha? else none) = none := by
      rw [if_neg]
      rintro ⟨hh, -⟩
      exact absurd hh (by decide)
    simp only [hpay, hw, if_true]

/-- Witness for C3 at concrete inputs: an update entry without a token against
a remote that still has the file picks up the re-read token; against a remote
where the file is gone it is downgraded to a create write that proceeds. -/
theorem C3_update_token_refresh_witness :
    (push_file_resolve (fun _ => Except.ok ("<old>", some "sha1")) 2
      ⟨"index.html", some "x", none, some "update"⟩ =
      Except.ok ("update", some "sha1")) ∧
    (push_file_resolve (fun _ => Except.ok ("", none)) 2
      ⟨"index.html", some "x", none, some "update"⟩ =
      Except.ok ("create", none)) ∧
    (push_files_loop (fun _ => Except.ok ("", none)) (fun _ => true) 2
      [⟨"index.html", some "x", none, some "update"⟩] =
      ([Event.writeFile "index.html" "create" none], Except.ok ())) := by
  refine ⟨?_, ?_, ?_⟩
  · exact (C3_update_token_refresh (fun _ => Except.ok ("<old>", some "sha1"))
      (fun _ => true) 2 ⟨"index.html", some "x", none, some "update"⟩ []
      "<old>" (some "sha1") rfl rfl rfl).1 rfl
  · exact ((C3_update_token_refresh (fun _ => Except.ok ("", none))
      (fun _ => true) 2 ⟨"index.html", some "x", none, some "update"⟩ []
      "" none rfl rfl rfl).2 rfl).1
  · have := ((C3_update_token_refresh (fun _ => Except.ok ("", none))
      (fun _ => true) 2 ⟨"index.html", some "x", none, some "update"⟩ []
      "" none rfl rfl rfl).2 rfl).2 rfl
    rw [this]
    rfl

/-! ### Claim C8 -/

theorem write_filter_loop_names (files : List RawFile) :
    ∀ e ∈ write_filter_loop files, e.name = "index.html" ∨ e.name = "README.md" := by
  induction files with
  | nil => simp [write_filter_loop]
  | cons f rest ih =>
      intro e he
      simp only [write_filter_loop] at he
      by_cases hf : f.name? = some "index.html" ∨ f.name? = some "README.md"
      · rw [if_pos hf] at he
        rcases List.mem_cons.mp he with h | h
        · subst h
          rcases hf with hf | hf <;> simp [hf]
        · exact ih e h
      · rw [if_neg hf] at he
        exact ih e he

theorem update_filter_loop_names (efs : List ExistingFile) (files : List RawFile) :
    ∀ e ∈ update_filter_loop efs files,
      e.name = "index.html" ∨ e.name = "README.md" := by
  induction files with
  | nil => simp [update_filter_loop]
  | cons f rest ih =>
      intro e he
      simp only [update_filter_loop] at he
      by_cases hf : f.name? = some "index.html" ∨ f.name? = some "README.md"
      · rw [if_pos hf] at he
        rcases List.mem_cons.mp he with h | h
        · subst h
          rcases hf with hf | hf <;> simp [hf]
        · exact ih e h
      · rw [if_neg hf] at he
        exact ih e he

theorem write_filter_loop_keeps (files : List RawFile) :
    ∀ f ∈ files, (f.name? = some "index.html" ∨ f.name? = some "README.md") →
      ∃ e ∈ write_filter_loop files, some e.name = f.name? ∧ e.content? = f.content? := by
  induction files with
  | nil => simp
  | cons g rest ih =>
      intro f hf hrec
      simp only [write_filter_loop]
      rcases List.mem_cons.mp hf with h | h
      · subst h
        rw [if_pos hrec]
        refine ⟨⟨(f.name?).getD "", f.content?, none, none⟩, List.mem_cons_self _ _, ?_, rfl⟩
        rcases hrec with hr | hr <;> simp [hr]
      · obtain ⟨e, he, hprop⟩ := ih f h hrec
        by_cases hg : g.name? = some "index.html" ∨ g.name? = some "README.md"
        · rw [if_pos hg]
          exact ⟨e, List.mem_cons_of_mem _ he, hprop⟩
        · rw [if_neg hg]
          exact ⟨e, he, hprop⟩

theorem update_filter_loop_keeps (efs : List ExistingFile) (files : List RawFile) :
    ∀ f ∈ files, (f.name? = some "index.html" ∨ f.name? = some "README.md") →
      ∃ e ∈ update_filter_loop efs files,
        some e.name = f.name? ∧ e.content? = f.content? := by
  induction files with
  | nil => simp
  | cons g rest ih =>
      intro f hf hrec
      simp only [update_filter_loop]
      rcases List.mem_cons.mp hf with h | h
      · subst h
        rw [if_pos hrec]
        refine ⟨_, List.mem_cons_self _ _, ?_, rfl⟩
        rcases hrec with hr | hr <;> simp [hr]
      · obtain ⟨e, he, hprop⟩ := ih f h hrec
        by_cases hg : g.name? = some "index.html" ∨ g.name? = some "README.md"
        · rw [if_pos hg]
          exact ⟨e, List.mem_cons_of_mem _ he, hprop⟩
        · rw [if_neg hg]
          exact ⟨e, he, hprop⟩

theorem write_filter_loop_actions (files : List RawFile) :
    ∀ e ∈ write_filter_loop files, e.action? = none := by
  induction files with
  | nil => simp [write_filter_loop]
  | cons f rest ih =>
      intro e he
      simp only [write_filter_loop] at he
      by_cases hf : f.name? = some "index.html" ∨ f.name? = some "README.md"
      · rw [if_pos hf] at he
        rcases List.mem_cons.mp he with h | h
        · subst h; rfl
        · exact ih e h
      · rw [if_neg hf] at he
        exact ih e he

/-- Pushing a list of action-less entries in round 1 writes each of them, in
order, as a create without a token. -/
theorem push_files_loop_creates
    (readF : String → Except String (String × Option String)) :
    ∀ files : List PushFile, (∀ f ∈ files, f.action? = none) →
      push_files_loop readF (fun _ => true) 1 files =
        (files.map (fun f => Event.writeFile f.name "create" none), Except.ok ()) := by
  intro files
  induction files with
  | nil => intro _; rfl
  | cons f rest ih =>
      intro h
      have hf : f.action? = none := h f (List.mem_cons_self f rest)
      have hres : push_file_resolve readF 1 f = Except.ok ("create", f.sha?) := by
        simp [push_file_resolve, hf]
      rw [push_files_loop_cons, hres]
      simp only [if_true]
      rw [ih (fun g hg => h g (List.mem_cons_of_mem f hg))]
      have hpay : (if ("create" : String) = "update" ∧ pyTruthy f.sha? = true
          then f.sha? else none) = none := by
        rw [if_neg]
        rintro ⟨hh, -⟩
        exact absurd hh (by decide)
      simp [hpay]

/-- C8: both generation adapters return exactly the input entries whose name
is one of the two recognized names — an entry with any other name is silently
dropped, while every recognized entry is kept with its content; and in the
creation write step each kept entry is written (published), one write event
per entry, in order. -/
theorem C8_recognized_filter (files : List RawFile) (efs : List ExistingFile)
    (readF : String → Except String (String × Option String)) :
    write_code_with_llm (LlmResult.parsed (some files)) =
      Except.ok (write_filter_loop files) ∧
    update_code_with_llm (LlmResult.parsed (some files)) efs =
      Except.ok (update_filter_loop efs files) ∧
    (∀ e ∈ write_filter_loop files, e.name = "index.html" ∨ e.name = "README.md") ∧
    (∀ e ∈ update_filter_loop efs files, e.name = "index.html" ∨ e.name = "README.md") ∧
    (∀ f ∈ files, (f.name? = some "index.html" ∨ f.name? = some "README.md") →
      (∃ e ∈ write_filter_loop files, some e.name = f.name? ∧ e.content? = f.content?) ∧
      (∃ e ∈ update_filter_loop efs files, some e.name = f.name? ∧ e.content? = f.content?)) ∧
    ((push_files_to_repo readF (fun _ => true) (write_filter_loop files) 1).1 =
      (write_filter_loop files).map (fun f => Event.writeFile f.name "create" none)) := by
  refine ⟨rfl, rfl, write_filter_loop_names files, update_filter_loop_names efs files,
    fun f hf hrec => ⟨write_filter_loop_keeps files f hf hrec,
      update_filter_loop_keeps efs files f hf hrec⟩, ?_⟩
  rw [show push_files_to_repo readF (fun _ => true) (write_filter_loop files) 1 =
        push_files_loop readF (fun _ => true) 1 (write_filter_loop files) from rfl,
      push_files_loop_creates readF (write_filter_loop files)
        (write_filter_loop_actions files)]

/-- Witness for C8 at a concrete generation output holding one recognized and
one unrecognized file name: the unrecognized one is dropped, the recognized
one is kept and written. -/
theorem C8_recognized_filter_witness :
    write_filter_loop
      [⟨some "index.html", some "<p>A</p>", none⟩, ⟨some "evil.sh", some "rm", none⟩] =
      [⟨"index.html", some "<p>A</p>", none, none⟩] ∧
    (∃ e ∈ write_filter_loop
        [⟨some "index.html", some "<p>A</p>", none⟩, ⟨some "evil.sh", some "rm", none⟩],
      some e.name = some "index.html" ∧ e.content? = some "<p>A</p>") ∧
    (push_files_to_repo (fun _ => Except.ok ("", none)) (fun _ => true)
      (write_filter_loop
        [⟨some "index.html", some "<p>A</p>", none⟩, ⟨some "evil.sh", some "rm", none⟩]) 1).1 =
      [Event.writeFile "index.html" "create" none] := by
  have h := C8_recognized_filter
    [⟨some "index.html", some "<p>A</p>", none⟩, ⟨some "evil.sh", some "rm", none⟩]
    [] (fun _ => Except.ok ("", none))
  refine ⟨rfl, ?_, ?_⟩
  · exact (h.2.2.2.2.1 ⟨some "index.html", some "<p>A</p>", none⟩
      (List.mem_cons_self _ _) (Or.inl rfl)).1
  · rw [h.2.2.2.2.2]
    rfl

/-! ### Claim C2: token-consistency machinery -/

/-- A push entry is token-consistent with the remote when any truthy sha it
carries is exactly the sha the remote read reports for its name. -/
def sha_consistent (readF : String → Except String (String × Option String))
    (f : PushFile) : Prop :=
  ∀ s, f.sha? = some s → s ≠ "" → ∃ c, readF f.name = Except.ok (c, some s)

theorem push_file_resolve_update
    (readF : String → Except String (String × Option String)) (round : Nat)
    (f : PushFile) (sh : Option String)
    (hcons : sha_consistent readF f)
    (hres : push_file_resolve readF round f = Except.ok ("update", sh)) :
    ∃ s c, sh = some s ∧ s ≠ "" ∧ readF f.name = Except.ok (c, some s) := by
  simp only [push_file_resolve] at hres
  by_cases hcond : ((f.action?).getD (if round = 1 then "create" else "update")) = "update"
      ∧ pyTruthy f.sha? = false
  · rw [if_pos hcond] at hres
    cases hread : readF f.name with
    | error e => rw [hread] at hres; cases hres
    | ok pr =>
        obtain ⟨c, cs⟩ := pr
        simp only [hread] at hres
        by_cases ht : pyTruthy cs = true
        · rw [if_pos ht] at hres
          obtain ⟨s, hs, hne⟩ := (pyTruthy_iff cs).mp ht
          simp only [Except.ok.injEq, Prod.mk.injEq, true_and] at hres
          refine ⟨s, c, ?_, hne, ?_⟩
          · rw [← hres, hs]
          · rw [hs]
        · rw [if_neg ht] at hres
          simp at hres
  · rw [if_neg hcond] at hres
    simp only [Except.ok.injEq, Prod.mk.injEq] at hres
    obtain ⟨ha, hsh⟩ := hres
    have htr : pyTruthy f.sha? = true := by
      by_cases htr : pyTruthy f.sha? = true
      · exact htr
      · have hfalse : pyTruthy f.sha? = false := by
          revert htr; cases pyTruthy f.sha? <;> simp
        exact absurd ⟨ha, hfalse⟩ hcond
    obtain ⟨s, hs, hne⟩ := (pyTruthy_iff _).mp htr
    obtain ⟨c, hc⟩ := hcons s hs hne
    exact ⟨s, c, by rw [← hsh, hs], hne, hc⟩

/-- Every update write event the push loop emits carries a truthy token that
agrees with what the (static) remote reports for that file. -/
theorem push_files_loop_update_events
    (readF : String → Except String (String × Option String))
    (writeOk : String → Bool) (round : Nat) :
    ∀ files : List PushFile, (∀ f ∈ files, sha_consistent readF f) →
      ∀ n sh, Event.writeFile n "update" sh ∈ (push_files_loop readF writeOk round files).1 →
        ∃ s c, sh = some s ∧ s ≠ "" ∧ readF n = Except.ok (c, some s) := by
  intro files
  induction files with
  | nil => intro _ n sh h; simp [push_files_loop] at h
  | cons f rest ih =>
      intro hcons n sh hmem
      rw [push_files_loop_cons] at hmem
      cases hres : push_file_resolve readF round f with
      | error e => simp [hres] at hmem
      | ok pr =>
          obtain ⟨fa, fs⟩ := pr
          simp only [hres] at hmem
          have head_case : Event.writeFile n "update" sh =
              Event.writeFile f.name fa
                (if fa = "update" ∧ pyTruthy fs = true then fs else none) →
              ∃ s c, sh = some s ∧ s ≠ "" ∧ readF n = Except.ok (c, some s) := by
            intro hhead
            injection hhead with hn hfa hsh
            subst hn
            subst hfa
            obtain ⟨s, c, hs, hne, hr⟩ :=
              push_file_resolve_update readF round f fs
                (hcons f (List.mem_cons_self f rest)) hres
            have hps : (if ("update" : String) = "update" ∧ pyTruthy fs = true
                then fs else none) = fs := by
              rw [if_pos ⟨rfl, (pyTruthy_iff fs).mpr ⟨s, hs, hne⟩⟩]
            rw [hsh, hps]
            exact ⟨s, c, hs, hne, hr⟩
          by_cases hw : writeOk f.name
          · rw [if_pos hw] at hmem
            rcases List.mem_cons.mp hmem with h | h
            · exact head_case h
            · exact ih (fun g hg => hcons g (List.mem_cons_of_mem f hg)) n sh h
          · rw [if_neg hw] at hmem
            rcases List.mem_singleton.mp hmem with h
            exact head_case h

/-- Every entry of a successful existing-files fetch reads back from the
remote exactly as recorded (name, content and sha). -/
theorem fetch_loop_consistent
    (readF : String → Except String (String × Option String)) :
    ∀ (ps : List String) (efs : List ExistingFile),
      fetch_loop readF ps = Except.ok efs →
      ∀ ef ∈ efs, readF ef.name = Except.ok (ef.content, ef.sha?) := by
  intro ps
  induction ps with
  | nil =>
      intro efs h ef hef
      simp only [fetch_loop, Except.ok.injEq] at h
      subst h
      simp at hef
  | cons p rest ih =>
      intro efs h ef hef
      simp only [fetch_loop] at h
      cases hr : readF p with
      | error e => simp [hr] at h
      | ok pr =>
          obtain ⟨content, sha⟩ := pr
          simp only [hr] at h
          cases hrec : fetch_loop readF rest with
          | error e => simp [hrec] at h
          | ok l =>
              simp only [hrec, Except.ok.injEq] at h
              subst h
              by_cases hc : content = ""
              · rw [if_pos hc] at hef
                exact ih l hrec ef hef
              · rw [if_neg hc] at hef
                rcases List.mem_cons.mp hef with h1 | h1
                · subst h1
                  simpa using hr
                · exact ih l hrec ef h1

/-- A token found through the sha map comes from an existing file of the same
name, hence agrees with the remote. -/
theorem lookup_sha_spec (readF : String → Except String (String × Option String))
    (efs : List ExistingFile) (n : String) (s : String)
    (hefs : ∀ ef ∈ efs, readF ef.name = Except.ok (ef.content, ef.sha?))
    (h : lookup_sha efs n = some s) :
    ∃ c, readF n = Except.ok (c, some s) := by
  unfold lookup_sha at h
  cases hfind : efs.reverse.find? (fun ef => ef.name = n) with
  | none => rw [hfind] at h; cases h
  | some ef =>
      rw [hfind] at h
      replace h : ef.sha? = some s := h
      have hmem : ef ∈ efs := List.mem_reverse.mp (List.mem_of_find?_eq_some hfind)
      have hname : ef.name = n := by
        simpa using List.find?_some hfind
      have hr := hefs ef hmem
      rw [hname, h] at hr
      exact ⟨ef.content, hr⟩

/-- Entries produced by the update adapter are token-consistent: any sha they
carry was copied from the existing-files read of the same name. -/
theorem update_filter_loop_consistent
    (readF : String → Except String (String × Option String))
    (efs : List ExistingFile)
    (hefs : ∀ ef ∈ efs, readF ef.name = Except.ok (ef.content, ef.sha?)) :
    ∀ files : List RawFile, ∀ u ∈ update_filter_loop efs files,
      sha_consistent readF u := by
  intro files
  induction files with
  | nil => simp [update_filter_loop]
  | cons f rest ih =>
      intro u hu
      simp only [update_filter_loop] at hu
      by_cases hf : f.name? = some "index.html" ∨ f.name? = some "README.md"
      · rw [if_pos hf] at hu
        rcases List.mem_cons.mp hu with h | h
        · subst h
          intro s hs hne
          by_cases ha : (f.action?).getD "update" = "update"
          · replace hs : (if (f.action?).getD "update" = "update"
                then lookup_sha efs ((f.name?).getD "") else none) = some s := hs
            rw [if_pos ha] at hs
            exact lookup_sha_spec readF efs ((f.name?).getD "") s hefs hs
          · replace hs : (if (f.action?).getD "update" = "update"
                then lookup_sha efs ((f.name?).getD "") else none) = some s := hs
            rw [if_neg ha] at hs
            cases hs
        · exact ih u h
      · rw [if_neg hf] at hu
        exact ih u hu

theorem update_code_consistent
    (readF : String → Except String (String × Option String)) (gen : LlmResult)
    (efs : List ExistingFile) (ups : List PushFile)
    (hefs : ∀ ef ∈ efs, readF ef.name = Except.ok (ef.content, ef.sha?))
    (h : update_code_with_llm gen efs = Except.ok ups) :
    ∀ u ∈ ups, sha_consistent readF u := by
  cases gen with
  | malformed => simp [update_code_with_llm] at h
  | parsed fs? =>
      simp only [update_code_with_llm, Except.ok.injEq] at h
      subst h
      exact update_filter_loop_consistent readF efs hefs (fs?.getD [])

/-- An entry whose sha was filled in from a found existing file is
token-consistent. -/
theorem ensure_found_consistent
    (readF : String → Except String (String × Option String))
    (efs : List ExistingFile) (n : String) (co : Option String) (ef : ExistingFile)
    (hefs : ∀ ef ∈ efs, readF ef.name = Except.ok (ef.content, ef.sha?))
    (hfind : efs.find? (fun g => g.name = n) = some ef) :
    sha_consistent readF ⟨n, co, ef.sha?, some "update"⟩ := by
  intro s hs hne
  replace hs : ef.sha? = some s := hs
  have hmem := List.mem_of_find?_eq_some hfind
  have hname : ef.name = n := by
    simpa using List.find?_some hfind
  have hr := hefs ef hmem
  rw [hname, hs] at hr
  exact ⟨ef.content, hr⟩

/-- The ensure-sha pass preserves token-consistency. -/
theorem ensure_sha_consistent
    (readF : String → Except String (String × Option String))
    (efs : List ExistingFile) (u : PushFile)
    (hefs : ∀ ef ∈ efs, readF ef.name = Except.ok (ef.content, ef.sha?))
    (hu : sha_consistent readF u) :
    sha_consistent readF (ensure_sha efs u) := by
  obtain ⟨n, co, sh, a⟩ := u
  have hu' : ∀ s, sh = some s → s ≠ "" → ∃ c, readF n = Except.ok (c, some s) := hu
  by_cases h0 : a = none
  · subst h0
    by_cases h1 : sh = none
    · subst h1
      cases hfind : efs.find? (fun g => g.name = n) with
      | some ef =>
          have hens : ensure_sha efs ⟨n, co, none, none⟩ =
              ⟨n, co, ef.sha?, some "update"⟩ := by
            simp [ensure_sha, hfind]
          rw [hens]
          exact ensure_found_consistent readF efs n co ef hefs hfind
      | none =>
          have hens : ensure_sha efs ⟨n, co, none, none⟩ =
              ⟨n, co, none, some "update"⟩ := by
            simp [ensure_sha, hfind]
          rw [hens]
          intro s hs hne
          exact absurd hs (by simp)
    · have hens : ensure_sha efs ⟨n, co, sh, none⟩ = ⟨n, co, sh, some "update"⟩ := by
        simp [ensure_sha, h1]
      rw [hens]
      intro s hs hne
      exact hu' s hs hne
  · by_cases h2 : a = some "update" ∧ sh = none
    · obtain ⟨h2a, h2b⟩ := h2
      subst h2a
      subst h2b
      cases hfind : efs.find? (fun g => g.name = n) with
      | some ef =>
          have hens : ensure_sha efs ⟨n, co, none, some "update"⟩ =
              ⟨n, co, ef.sha?, some "update"⟩ := by
            simp [ensure_sha, hfind]
          rw [hens]
          exact ensure_found_consistent readF efs n co ef hefs hfind
      | none =>
          have hens : ensure_sha efs ⟨n, co, none, some "update"⟩ =
              ⟨n, co, none, some "update"⟩ := by
            simp [ensure_sha, hfind]
          rw [hens]
          intro s hs hne
          exact absurd hs (by simp)
    · have hens : ensure_sha efs ⟨n, co, sh, a⟩ = ⟨n, co, sh, a⟩ := by
        simp only [ensure_sha, if_neg h0]
        rw [if_neg h2]
      rw [hens]
      exact hu

/-- Every event of a revision run either is one of the push loop's write
events over the ensured entries, or is the final notification. -/
theorem revise_trace_characterization (o : Oracle) (data : Request) (gen : LlmResult)
    (evs : List Event) (res : Except String EvalReport)
    (hrun : revise_existing_application o data gen = (evs, res)) :
    evs = [] ∨
    ∃ efs updated0,
      fetch_loop o.readFile key_files = Except.ok efs ∧
      update_code_with_llm gen efs = Except.ok updated0 ∧
      ∀ ev ∈ evs,
        ev ∈ (push_files_loop o.readFile o.writeOk ((data.round?).getD 2)
                (updated0.map (ensure_sha efs))).1 ∨
        ∃ d, ev = Event.notify d := by
  simp only [revise_existing_application] at hrun
  cases h1 : getReq "task" data.task? with
  | error e =>
      simp only [h1] at hrun
      exact Or.inl (congrArg Prod.fst hrun).symm
  | ok repo_name =>
  simp only [h1] at hrun
  cases h2 : fetch_loop o.readFile key_files with
  | error e =>
      simp only [h2] at hrun
      exact Or.inl (congrArg Prod.fst hrun).symm
  | ok efs =>
  simp only [h2] at hrun
  cases h3 : update_code_with_llm gen efs with
  | error e =>
      simp only [h3] at hrun
      exact Or.inl (congrArg Prod.fst hrun).symm
  | ok updated0 =>
  simp only [h3] at hrun
  cases h4 : push_files_to_repo o.readFile o.writeOk
      (updated0.map (ensure_sha efs)) ((data.round?).getD 2) with
  | mk pevs pres =>
  simp only [h4] at hrun
  have hpevs : (push_files_loop o.readFile o.writeOk ((data.round?).getD 2)
      (updated0.map (ensure_sha efs))).1 = pevs := congrArg Prod.fst h4
  cases pres with
  | error e =>
      simp only at hrun
      refine Or.inr ⟨efs, updated0, rfl, h3, ?_⟩
      intro ev hev
      have hevs : evs = pevs := (congrArg Prod.fst hrun).symm
      rw [hevs] at hev
      rw [hpevs]
      exact Or.inl hev
  | ok u =>
  simp only at hrun
  cases h5 : o.latestCommit with
  | error e =>
      simp only [h5] at hrun
      refine Or.inr ⟨efs, updated0, rfl, h3, ?_⟩
      intro ev hev
      have hevs : evs = pevs := (congrArg Prod.fst hrun).symm
      rw [hevs] at hev
      rw [hpevs]
      exact Or.inl hev
  | ok commit_sha =>
  simp only [h5] at hrun
  cases h6 : getReq "email" data.email? with
  | error e =>
      simp only [h6] at hrun
      refine Or.inr ⟨efs, updated0, rfl, h3, ?_⟩
      intro ev hev
      have hevs : evs = pevs := (congrArg Prod.fst hrun).symm
      rw [hevs] at hev
      rw [hpevs]
      exact Or.inl hev
  | ok email =>
  simp only [h6] at hrun
  cases h7 : getReq "round" data.round? with
  | error e =>
      simp only [h7] at hrun
      refine Or.inr ⟨efs, updated0, rfl, h3, ?_⟩
      intro ev hev
      have hevs : evs = pevs := (congrArg Prod.fst hrun).symm
      rw [hevs] at hev
      rw [hpevs]
      exact Or.inl hev
  | ok round =>
  simp only [h7] at hrun
  cases h8 : getReq "nonce" data.nonce? with
  | error e =>
      simp only [h8] at hrun
      refine Or.inr ⟨efs, updated0, rfl, h3, ?_⟩
      intro ev hev
      have hevs : evs = pevs := (congrArg Prod.fst hrun).symm
      rw [hevs] at hev
      rw [hpevs]
      exact Or.inl hev
  | ok nonce =>
  simp only [h8] at hrun
  cases h9 : getReq "evaluation_url" data.evaluation_url? with
  | error e =>
      simp only [h9] at hrun
      refine Or.inr ⟨efs, updated0, rfl, h3, ?_⟩
      intro ev hev
      have hevs : evs = pevs := (congrArg Prod.fst hrun).symm
      rw [hevs] at hev
      rw [hpevs]
      exact Or.inl hev
  | ok url =>
  simp only [h9] at hrun
  refine Or.inr ⟨efs, updated0, rfl, h3, ?_⟩
  intro ev hev
  have hevs : evs = pevs ++ [Event.notify (ping_evaluation_server o.pingRespond 3).1] :=
    (congrArg Prod.fst hrun).symm
  rw [hevs] at hev
  rcases List.mem_append.mp hev with h | h
  · rw [hpevs]
    exact Or.inl h
  · rcases List.mem_singleton.mp h with h
    exact Or.inr ⟨_, h⟩

/-! ### Claim C2 -/

/-- C2: in a revision run against a static remote, every file write performed
with action update carries a token in its payload, the token is non-empty,
and it equals the sha the remote read of that file reports — the value most
recently read for that file during the run. -/
theorem C2_update_write_token (o : Oracle) (data : Request) (gen : LlmResult)
    (evs : List Event) (res : Except String EvalReport)
    (hrun : revise_existing_application o data gen = (evs, res))
    (n : String) (sh : Option String)
    (hmem : Event.writeFile n "update" sh ∈ evs) :
    ∃ s c, sh = some s ∧ s ≠ "" ∧ o.readFile n = Except.ok (c, some s) := by
  rcases revise_trace_characterization o data gen evs res hrun with
    hnil | ⟨efs, updated0, hfetch, hupd, htrace⟩
  · subst hnil
    simp at hmem
  · rcases htrace _ hmem with hpush | ⟨d, hd⟩
    · have hefs := fetch_loop_consistent o.readFile key_files efs hfetch
      have hcons : ∀ f ∈ updated0.map (ensure_sha efs), sha_consistent o.readFile f := by
        intro f hf
        obtain ⟨u, hu, rfl⟩ := List.mem_map.mp hf
        exact ensure_sha_consistent o.readFile efs u hefs
          (update_code_consistent o.readFile gen efs updated0 hefs hupd u hu)
      exact push_files_loop_update_events o.readFile o.writeOk ((data.round?).getD 2)
        (updated0.map (ensure_sha efs)) hcons n sh hpush
    · cases hd

/-- A complete revision-round request. -/
def req_revision : Request :=
  ⟨some "s3cret", some "a@b.c", some "repo", some "brief", some "http://cb",
   some 2, some "n1"⟩

/-- A generation result that updates both recognized files. -/
def gen_update_two : LlmResult :=
  LlmResult.parsed (some [⟨some "index.html", some "<new>", some "update"⟩,
                          ⟨some "README.md", some "# new", some "update"⟩])

/-- Witness for C2 at the concrete revision run over oracle_rev: the update
write of index.html carries the token sha1, which is non-empty and is exactly
what the remote read reports. -/
theorem C2_update_write_token_witness :
    ∃ s c, (some "sha1" : Option String) = some s ∧ s ≠ "" ∧
      oracle_rev.readFile "index.html" = Except.ok (c, some s) :=
  C2_update_write_token oracle_rev req_revision gen_update_two
    [Event.writeFile "index.html" "update" (some "sha1"),
     Event.writeFile "README.md" "update" (some "sha2"),
     Event.notify true]
    (Except.ok ⟨"a@b.c", "repo", 2, "n1", "https://github.com/user/repo", "c0ffee",
      "https://user.github.io/repo/"⟩)
    rfl "index.html" (some "sha1") (List.mem_cons_self _ _)

/-! ### Claim C4 (corrected) -/

/-- A concrete oracle with no repository yet; every remote operation the
creation path needs succeeds. -/
def oracle_absent : Oracle :=
  ⟨"user", false, (fun _ => Except.ok ("", none)), (fun _ => true), true, true,
   Except.ok "abc123", (fun _ => some 200)⟩

/-- A complete first-round request. -/
def req_full : Request :=
  ⟨some "s3cret", some "a@b.c", some "repo", some "do it", some "http://cb",
   some 1, some "n0"⟩

/-- The same request with the round field missing. -/
def req_no_round : Request :=
  ⟨some "s3cret", some "a@b.c", some "repo", some "do it", some "http://cb",
   none, some "n0"⟩

/-- A generation result producing both recognized files. -/
def gen_two_files : LlmResult :=
  LlmResult.parsed (some [⟨some "index.html", some "<h1>hi</h1>", none⟩,
                          ⟨some "README.md", some "# readme", none⟩])

/-- C4 counterexample: a generation output that parses but contains no file
entries at all — in particular missing both recognized files — does not abort
the run: the adapter returns an empty file set, and the creation run proceeds
to create the repository, enable hosting and notify, completing successfully
with nothing written, which refutes the claim that a missing-recognized-files
output is fatal before any publish. -/
theorem C4_generation_strictness_counterexample :
    write_code_with_llm (LlmResult.parsed (some [])) = Except.ok [] ∧
    build_initial_application oracle_absent req_full (LlmResult.parsed (some [])) =
      ([Event.createRepo, Event.enablePages, Event.notify true],
       Except.ok ⟨"a@b.c", "repo", 1, "n0", "https://github.com/user/repo",
         "abc123", "https://user.github.io/repo/"⟩) := by
  constructor
  · rfl
  · rfl

/-- C4 amended: an output of the generation service that is not parseable as
the required JSON structure is fatal on both paths before any remote write —
the run ends with an error and an empty event trace; but an output that
parses while missing the recognized files is not an error: the adapter
returns the filtered (possibly empty) file list and the run proceeds. -/
theorem C4_generation_strictness (o : Oracle) (data : Request)
    (fs? : Option (List RawFile)) :
    (build_initial_application o data LlmResult.malformed).1 = [] ∧
    (∃ e, (build_initial_application o data LlmResult.malformed).2 = Except.error e) ∧
    (revise_existing_application o data LlmResult.malformed).1 = [] ∧
    (∃ e, (revise_existing_application o data LlmResult.malformed).2 = Except.error e) ∧
    write_code_with_llm LlmResult.malformed = Except.error "JSONDecodeError" ∧
    write_code_with_llm (LlmResult.parsed fs?) =
      Except.ok (write_filter_loop (fs?.getD [])) := by
  refine ⟨?_, ?_, ?_, ?_, rfl, rfl⟩
  · cases ht : data.task? with
    | none => simp [build_initial_application, getReq, ht]
    | some t => simp [build_initial_application, getReq, ht, write_code_with_llm]
  · cases ht : data.task? with
    | none => exact ⟨"KeyError: task", by simp [build_initial_application, getReq, ht]⟩
    | some t =>
        exact ⟨"JSONDecodeError",
          by simp [build_initial_application, getReq, ht, write_code_with_llm]⟩
  · cases ht : data.task? with
    | none => simp [revise_existing_application, getReq, ht]
    | some t =>
        cases hf : fetch_loop o.readFile key_files with
        | error e => simp [revise_existing_application, getReq, ht, hf]
        | ok efs =>
            simp [revise_existing_application, getReq, ht, hf, update_code_with_llm]
  · cases ht : data.task? with
    | none => exact ⟨"KeyError: task", by simp [revise_existing_application, getReq, ht]⟩
    | some t =>
        cases hf : fetch_loop o.readFile key_files with
        | error e =>
            exact ⟨e, by simp [revise_existing_application, getReq, ht, hf]⟩
        | ok efs =>
            exact ⟨"JSONDecodeError",
              by simp [revise_existing_application, getReq, ht, hf, update_code_with_llm]⟩

/-- Witness for the amended C4 at a concrete run: a malformed generation
output aborts the creation run with an empty event trace and an error. -/
theorem C4_generation_strictness_witness :
    (build_initial_application oracle_absent req_full LlmResult.malformed).1 = [] ∧
    (∃ e, (build_initial_application oracle_absent req_full LlmResult.malformed).2 =
      Except.error e) := by
  have h := C4_generation_strictness oracle_absent req_full none
  exact ⟨h.1, h.2.1⟩

/-! ### Claim C10 -/

/-- C10: intake does not require round (or nonce), but the workflow
dereferences them when building the evaluation payload: the concrete request
req_no_round (missing round) passes validation and is enqueued with the
processing acknowledgment; its background run takes the creation path,
creates the repository, pushes both files and enables hosting, and then fails
with a KeyError on round — caught at the workflow's top level and logged —
before any notification is sent, the earlier side effects left in place. -/
theorem C10_missing_round_late_failure :
    handle_task "s3cret" req_no_round = (HResp.accepted (some "repo") none, true) ∧
    process_task_background oracle_absent req_no_round gen_two_files =
      ([Event.createRepo,
        Event.writeFile "index.html" "create" none,
        Event.writeFile "README.md" "create" none,
        Event.enablePages], some "KeyError: round") := by
  constructor
  · rfl
  · rfl

end Tds
